import Mathlib

/-!
Shallow embedding of the bevy_curve_editor (src/main.rs).

Screen-space and curve-space coordinates are modelled over the rationals:
the f32 arithmetic of the source is taken exactly, with no rounding.  The
curve data structure (`CurveVariable` from the bevy fork) is not part of
the sources of this repository; its operations are modelled from the spec
and are marked as such in their doc comments.
-/

unseal Rat.add Rat.mul Rat.inv Rat.sub

/-- 2D vector over the rationals, standing for the `Vec2` and `Pos2`
values of the source. -/
@[ext]
structure V2 where
  x : ℚ
  y : ℚ
deriving DecidableEq

instance : Add V2 := ⟨fun a b => ⟨a.x + b.x, a.y + b.y⟩⟩
instance : Sub V2 := ⟨fun a b => ⟨a.x - b.x, a.y - b.y⟩⟩

/-- Axis-aligned rectangle, standing for the egui `Rect`. -/
structure Rect where
  min : V2
  max : V2
deriving DecidableEq

/-- egui `Rect::size`. -/
def Rect.size (r : Rect) : V2 := ⟨r.max.x - r.min.x, r.max.y - r.min.y⟩

/-- egui `Rect::contains` (inclusive on all edges). -/
def Rect.contains (r : Rect) (p : V2) : Bool :=
  decide (r.min.x ≤ p.x ∧ p.x ≤ r.max.x ∧ r.min.y ≤ p.y ∧ p.y ≤ r.max.y)

/-- Modelled from the spec: bevy `interpolation::utils::lerp_unclamped`
(not among the sources of this repository) — affine interpolation without
clamping. -/
def lerp_unclamped (a b t : ℚ) : ℚ := a + (b - a) * t

/-- `remap` from src/main.rs lines 48-52. -/
def remap (min max t out_min out_max : ℚ) : ℚ :=
  lerp_unclamped out_min out_max ((t - min) / (max - min))

/-- Pan gesture of `ui_example` (src/main.rs lines 109-118): returns the new
`display_offset`; `display_range` is untouched by the source. -/
def panStep (display_offset display_range : V2) (rect : Rect) (delta : V2) : V2 :=
  let size := rect.size
  let dx := remap 0 (-size.x) delta.x 0 display_range.x
  let dy := remap 0 size.y delta.y 0 display_range.y
  ⟨display_offset.x + dx, display_offset.y + dy⟩

/-- Zoom gesture of `ui_example` (src/main.rs lines 119-151): returns the new
`(display_offset, display_range)`.  `pos` is the hover position in absolute
screen coordinates; the source first makes it window relative and flips y.
The modifier (ctrl/command) selects the value axis, otherwise the time axis
is zoomed. -/
def zoomStep (display_offset display_range : V2) (rect : Rect) (pos : V2)
    (delta : ℚ) (modifier : Bool) : V2 × V2 :=
  let size := rect.size
  let px := pos.x - rect.min.x
  let py := size.y - (pos.y - rect.min.y)
  if modifier then
    let n := 1 / (-size.y)
    let dy := delta * n * display_range.y
    let y := py * n
    let y0 := y * display_range.y
    let ry := display_range.y + dy
    let y1 := y * ry
    (⟨display_offset.x, display_offset.y + (y1 - y0)⟩, ⟨display_range.x, ry⟩)
  else
    let n := 1 / (-size.x)
    let dx := delta * n * display_range.x
    let x := px * n
    let x0 := x * display_range.x
    let rx := display_range.x + dx
    let x1 := x * rx
    (⟨display_offset.x + (x1 - x0), display_offset.y⟩, ⟨rx, display_range.y⟩)

/-- Screen-to-curve mapping, as inlined throughout `ui_example`
(src/main.rs lines 291, 344, 349, 405-406): `dmin`/`dmax` are the display
window corners (`display_offset` and `display_offset + display_range`). -/
def toCurvePt (rect : Rect) (dmin dmax : V2) (p : V2) : V2 :=
  ⟨remap rect.min.x rect.max.x p.x dmin.x dmax.x,
   remap rect.max.y rect.min.y p.y dmin.y dmax.y⟩

/-- Curve-to-screen mapping, as inlined in `ui_example`
(src/main.rs lines 330-333): the y output range is reversed. -/
def toScreenPt (rect : Rect) (dmin dmax : V2) (q : V2) : V2 :=
  ⟨remap dmin.x dmax.x q.x rect.min.x rect.max.x,
   remap dmin.y dmax.y q.y rect.max.y rect.min.y⟩

/-- The max corner of the display window, `display_offset + display_range`
(src/main.rs lines 160-161). -/
def dispMax (display_offset display_range : V2) : V2 :=
  ⟨display_offset.x + display_range.x, display_offset.y + display_range.y⟩

/-- Segment interpolation rule of a keyframe (`Interpolation` of the bevy fork). -/
inductive Interpolation where
  | Step
  | Linear
  | Hermite
deriving DecidableEq

/-- Tangent-derivation policy of a keyframe (`TangentControl` of the bevy fork). -/
inductive TangentControl where
  | Auto
  | Free
  | Flat
  | Broken
deriving DecidableEq

/-- `TangentEdit` from src/main.rs lines 10-15: which tangent handle is
mid-drag. -/
inductive TangentEdit where
  | No
  | In
  | Out
deriving DecidableEq

/-- Modelled from the spec (§3): one control point of the curve.  The curve
type `CurveVariable<f32>` lives in the bevy fork, not in this repository. -/
structure Keyframe where
  time : ℚ
  value : ℚ
  in_tangent : ℚ
  out_tangent : ℚ
  interpolation : Interpolation
  tangent_control : TangentControl
deriving DecidableEq

/-- `usize::MAX`, the "no keyframe selected" sentinel of src/main.rs. -/
def usizeMAX : ℕ := 2 ^ 64 - 1

/-- `get_time` accessor (out of range yields a junk default, never reached by
the per-keyframe loop which stays in bounds). -/
def getTime (c : List Keyframe) (i : ℕ) : ℚ := ((c.get? i).map Keyframe.time).getD 0

/-- `get_value` accessor. -/
def getValue (c : List Keyframe) (i : ℕ) : ℚ := ((c.get? i).map Keyframe.value).getD 0

/-- Modelled from the spec (§4.1): the secant slope between two keyframes. -/
def secant (a b : Keyframe) : ℚ := (b.value - a.value) / (b.time - a.time)

/-- Modelled from the spec (§4.1): the automatic tangent slope at index `i` —
for an interior keyframe a catmull-rom style average of the secants to its
neighbors weighted by the neighbor time deltas, for a boundary keyframe the
secant to its single neighbor, and 0 with fewer than 2 keyframes. -/
def autoSlope (c : List Keyframe) (i : ℕ) : ℚ :=
  match c.get? i with
  | none => 0
  | some kf =>
    match (if i = 0 then none else c.get? (i - 1)), c.get? (i + 1) with
    | some p, some n =>
      ((n.time - kf.time) * secant p kf + (kf.time - p.time) * secant kf n)
        / (n.time - p.time)
    | some p, none => secant p kf
    | none, some n => secant kf n
    | none, none => 0

/-- The single-keyframe update used by `autoRecompute`: give an `Auto`
keyframe the automatic slope computed from the shape `c` at index `i`. -/
def updAuto (c : List Keyframe) (i : ℕ) (kf : Keyframe) : Keyframe :=
  if kf.tangent_control = TangentControl.Auto then
    { kf with in_tangent := autoSlope c i, out_tangent := autoSlope c i }
  else kf

/-- Walks the tail `l` whose head sits at index `i` of the full shape `c`,
applying `updAuto` to every keyframe. -/
def autoRecomputeGo (c : List Keyframe) (i : ℕ) : List Keyframe → List Keyframe
  | [] => []
  | kf :: rest => updAuto c i kf :: autoRecomputeGo c (i + 1) rest

/-- Modelled from the spec (§3 invariants): re-derive the tangents of every
`Auto` keyframe from the current shape.  Applied by the mutators after any
shape change; keyframes in other tangent modes are untouched. -/
def autoRecompute (c : List Keyframe) : List Keyframe := autoRecomputeGo c 0 c

/-- Sorted insertion by strictly increasing time; an incoming keyframe is
placed after any keyframe of equal time. -/
def insertSorted (k : Keyframe) : List Keyframe → List Keyframe
  | [] => [k]
  | a :: rest => if k.time < a.time then k :: a :: rest else a :: insertSorted k rest

/-- The index at which `insertSorted` places a keyframe of time `t`. -/
def insertPos (t : ℚ) : List Keyframe → ℕ
  | [] => 0
  | a :: rest => if t < a.time then 0 else insertPos t rest + 1

/-- Modelled from the spec (§4.1): `set_value` — update the dependent value
at `i`, then recompute `Auto` tangents; no-op when out of range. -/
def setValue (c : List Keyframe) (i : ℕ) (v : ℚ) : List Keyframe :=
  match c.get? i with
  | some kf => autoRecompute (c.set i { kf with value := v })
  | none => c

/-- Modelled from the spec (§4.1): `set_time` — update the time at `i`,
re-sorting if the keyframe moved past a neighbor; returns the new index when
the order changed (`some`), `none` when the index is unchanged; no-op when
out of range. -/
def setTime (c : List Keyframe) (i : ℕ) (nt : ℚ) : List Keyframe × Option ℕ :=
  match c.get? i with
  | none => (c, none)
  | some kf =>
    let rest := c.eraseIdx i
    let j := insertPos nt rest
    (autoRecompute (insertSorted { kf with time := nt } rest),
      if j = i then none else some j)

/-- Modelled from the spec (§4.1): `remove` — delete the keyframe at `i`,
silently a no-op when out of range, recomputing `Auto` tangents. -/
def removeKf (c : List Keyframe) (i : ℕ) : List Keyframe :=
  if i < c.length then autoRecompute (c.eraseIdx i) else c

/-- Modelled from the spec (§4.1, §9): the `insert()` builder of
src/main.rs lines 303-309 — insert a keyframe maintaining sort order with
fresh zero tangents in `Auto` control; a collision with an existing keyframe
time is rejected (the deterministic policy chosen here, with tolerance 0),
returning `none`; on success returns the index of the new keyframe. -/
def insertKf (c : List Keyframe) (t v : ℚ) (mode : Interpolation) :
    List Keyframe × Option ℕ :=
  if c.any fun kf => decide (kf.time = t) then (c, none)
  else
    (autoRecompute (insertSorted
        { time := t, value := v, in_tangent := 0, out_tangent := 0,
          interpolation := mode, tangent_control := TangentControl.Auto } c),
      some (insertPos t c))

/-- Modelled from the spec (§4.2): evaluate one segment between adjacent
keyframes `a` and `b` at `a.time ≤ t < b.time`, per the interpolation of `a`:
Step holds the value of `a`, Linear blends linearly, Hermite uses the cubic
Hermite basis with tangents scaled by the time span of the segment. -/
def segEval (a b : Keyframe) (t : ℚ) : ℚ :=
  match a.interpolation with
  | Interpolation.Step => a.value
  | Interpolation.Linear =>
    lerp_unclamped a.value b.value ((t - a.time) / (b.time - a.time))
  | Interpolation.Hermite =>
    let dt := b.time - a.time
    let s := (t - a.time) / dt
    let s2 := s * s
    let s3 := s2 * s
    (2 * s3 - 3 * s2 + 1) * a.value + (s3 - 2 * s2 + s) * dt * a.out_tangent
      + (-2 * s3 + 3 * s2) * b.value + (s3 - s2) * dt * b.in_tangent

/-- Modelled from the spec (§4.2): `sample` — evaluate the curve at `t`,
clamping before the first and after the last keyframe; an empty curve
yields 0 (the curve of the source is never empty). -/
def sample : List Keyframe → ℚ → ℚ
  | [], _ => 0
  | [a], _ => a.value
  | a :: b :: rest, t =>
    if t < a.time then a.value
    else if t < b.time then segEval a b t
    else sample (b :: rest) t

/-- The hit region of `dot` (src/main.rs lines 78-84): the square of
half-extent `select_radius` around `position`, tested against the pointer. -/
def hitSquare (pointer_position position : V2) (select_radius : ℚ) : Bool :=
  Rect.contains
    ⟨⟨position.x - select_radius, position.y - select_radius⟩,
     ⟨position.x + select_radius, position.y + select_radius⟩⟩ pointer_position

/-- `dot` from src/main.rs lines 67-98, minus the painting: hit-test the
pointer against the hit square around `position` and report
`(select, press)` exactly as the source does. -/
def dot (pointer_position : V2) (pointer_down selected : Bool) (position : V2)
    (select_radius : ℚ) : Bool × Bool :=
  if hitSquare pointer_position position select_radius then
    (selected || pointer_down, pointer_down)
  else if selected then (true, false)
  else (false, false)

/-- The loop-constant environment of the per-keyframe pass of `ui_example`
(src/main.rs lines 326-473): the interaction rect, the display window
corners `min`/`max` computed at lines 160-161, and the per-frame pointer
state (lines 278-283). -/
structure LoopEnv where
  rect : Rect
  dmin : V2
  dmax : V2
  pointer : V2
  down : Bool

/-- The editor state mutated by the per-keyframe pass. -/
structure LoopSt where
  curve : List Keyframe
  sk : ℕ
  dragging : Bool
  tdrag : TangentEdit
deriving DecidableEq

/-- The tangent-handle sub-step of the per-keyframe pass (src/main.rs lines
360-453).  Its geometry runs through f32 `atan`/`sin_cos`/`normalized`, so it
is kept abstract here as a parameter: given the keyframe index, its time,
value and screen position, it may rewrite the tangent fields of the curve and
the `tangent_drag` state — by the source it touches nothing else.  All theorems
below hold for every such sub-step. -/
def TStep : Type :=
  ℕ → ℚ → ℚ → V2 → List Keyframe → TangentEdit → List Keyframe × TangentEdit

/-- The trivial tangent sub-step, used to instantiate concrete runs whose
hypotheses keep the tangent branch unreachable (nothing selected). -/
def tangentIdle : TStep := fun _ _ _ _ c td => (c, td)

/-- The screen position of keyframe `i` (src/main.rs lines 330-333). -/
def kfScreenPos (env : LoopEnv) (c : List Keyframe) (i : ℕ) : V2 :=
  ⟨remap env.dmin.x env.dmax.x (getTime c i) env.rect.min.x env.rect.max.x,
   remap env.dmin.y env.dmax.y (getValue c i) env.rect.max.y env.rect.min.y⟩

/-- The curve-space time under the pointer (src/main.rs lines 291, 349). -/
def pointerTime (env : LoopEnv) : ℚ :=
  remap env.rect.min.x env.rect.max.x env.pointer.x env.dmin.x env.dmax.x

/-- The curve-space value under the pointer (src/main.rs lines 344, 406). -/
def pointerValue (env : LoopEnv) : ℚ :=
  remap env.rect.max.y env.rect.min.y env.pointer.y env.dmin.y env.dmax.y

/-- The second half of the loop body (src/main.rs lines 360-472): tangent
display/edit when selected, then the keyframe `dot` hit-test and the
selection/dragging update.  `selected` is the flag computed at line 339. -/
def afterDrag (env : LoopEnv) (ts : TStep) (selected : Bool) (s : LoopSt)
    (i : ℕ) (t v : ℚ) (position : V2) : LoopSt :=
  let s1 :=
    if selected then
      let r := ts i t v position s.curve s.tdrag
      { s with curve := r.1, tdrag := r.2 }
    else s
  let dp := dot env.pointer env.down selected position 6
  if dp.1 then { s1 with sk := i, dragging := s1.dragging || dp.2 }
  else if selected then { s1 with sk := usizeMAX }
  else s1

/-- One iteration of the per-keyframe loop of `ui_example` (src/main.rs lines
326-473): read the keyframe, map it to the screen, skip it entirely when the
rect does not contain it; otherwise run the drag mutation (lines 341-358,
with the `continue` on reorder), the tangent sub-step and the `dot`
selection update. -/
def loopBody (env : LoopEnv) (ts : TStep) (s : LoopSt) (i : ℕ) : LoopSt :=
  let t := getTime s.curve i
  let v := getValue s.curve i
  let position := kfScreenPos env s.curve i
  if ¬ (Rect.contains env.rect position = true) then s
  else
    let selected : Bool := decide (i = s.sk)
    if selected && s.dragging then
      let delta : V2 := ⟨position.x - env.pointer.x, position.y - env.pointer.y⟩
      let s1 :=
        if |delta.y| > 1 / 2 then
          { s with curve := setValue s.curve i (pointerValue env) }
        else s
      if |delta.x| > 1 / 2 then
        let r := setTime s1.curve i (pointerTime env)
        match r.2 with
        | some k => { s1 with curve := r.1, sk := k }
        | none => afterDrag env ts selected { s1 with curve := r.1 } i t v position
      else afterDrag env ts selected s1 i t v position
    else afterDrag env ts selected s i t v position

/-- The whole per-keyframe pass: `for i in 0..curve.len()` (src/main.rs
line 326); the length of the curve is invariant across the body. -/
def keyframeLoop (env : LoopEnv) (ts : TStep) (s : LoopSt) : LoopSt :=
  (List.range s.curve.length).foldl (loopBody env ts) s

/-- The insert-keyframe block of `ui_example` (src/main.rs lines 289-313):
on the insert key, insert at the curve-space time under the pointer with the
sampled value and Hermite interpolation; the selection becomes the returned
index, or `usize::MAX` when the insertion was rejected. -/
def insertStep (env : LoopEnv) (keyI : Bool) (c : List Keyframe) (sk : ℕ) :
    List Keyframe × ℕ :=
  if keyI then
    let t := pointerTime env
    let v := sample c t
    let r := insertKf c t v Interpolation.Hermite
    (r.1, r.2.getD usizeMAX)
  else (c, sk)

/-- The delete-selected-keyframe block of `ui_example` (src/main.rs lines
315-323): on the delete key with a selection present, remove it and clear
the selection. -/
def deleteStep (keyD : Bool) (c : List Keyframe) (sk : ℕ) : List Keyframe × ℕ :=
  if sk ≠ usizeMAX ∧ keyD = true then (removeKf c sk, usizeMAX) else (c, sk)

/-- The per-frame editor state (src/main.rs lines 17-25); the context-menu
anchor `tangent_popup_position` is carried but the menu itself (an egui
popup, lines 164-250) is outside this model. -/
structure CurveEditor where
  dragging : Bool
  selected_keyframe : ℕ
  display_offset : V2
  display_range : V2
  curve : List Keyframe
  tangent_popup_position : V2
  tangent_drag : TangentEdit

/-- The input snapshot of one frame, as read by `ui_example` from egui. -/
structure FrameInput where
  hover : Option V2
  middleDrag : Option V2
  scroll : ℚ
  modifier : Bool
  down : Bool
  keyI : Bool
  keyD : Bool
  rect : Rect

/-- One frame of `ui_example` (src/main.rs lines 100-475), in source order:
pan or zoom (109-151), the display window corners (160-161), the dragging
reset when the button is up (285-287), the insert block (289-313), the
delete block (315-323) and the per-keyframe pass (326-473).  The egui
context menu (164-250) and the pure draw calls are outside this model. -/
def ui_example (ts : TStep) (ed : CurveEditor) (inp : FrameInput) : CurveEditor :=
  let ed :=
    match inp.middleDrag with
    | some delta =>
      { ed with display_offset :=
          panStep ed.display_offset ed.display_range inp.rect delta }
    | none =>
      match inp.hover with
      | some pos =>
        let z := zoomStep ed.display_offset ed.display_range inp.rect pos
          inp.scroll inp.modifier
        { ed with display_offset := z.1, display_range := z.2 }
      | none => ed
  let dmin := ed.display_offset
  let dmax := dispMax ed.display_offset ed.display_range
  let pointer := inp.hover.getD ⟨-1, -1⟩
  let env : LoopEnv := ⟨inp.rect, dmin, dmax, pointer, inp.down⟩
  let ed := if inp.down then ed else { ed with dragging := false }
  let r1 := insertStep env inp.keyI ed.curve ed.selected_keyframe
  let ed := { ed with curve := r1.1, selected_keyframe := r1.2 }
  let r2 := deleteStep inp.keyD ed.curve ed.selected_keyframe
  let ed := { ed with curve := r2.1, selected_keyframe := r2.2 }
  let out := keyframeLoop env ts
    ⟨ed.curve, ed.selected_keyframe, ed.dragging, ed.tangent_drag⟩
  { ed with
    curve := out.curve, selected_keyframe := out.sk,
    dragging := out.dragging, tangent_drag := out.tdrag }

/-- Keyframe `i` is both on screen and inside the keyframe hit
square of half-extent 6 around the pointer (src/main.rs lines 335, 456-465). -/
def visHit (env : LoopEnv) (c : List Keyframe) (i : ℕ) : Bool :=
  Rect.contains env.rect (kfScreenPos env c i) &&
    hitSquare env.pointer (kfScreenPos env c i) 6

/-- The last index below `n` that is visible-and-hit, or `usize::MAX` when
none is: the selection the per-keyframe pass converges to when nothing was
selected at loop entry. -/
def lastHit (env : LoopEnv) (c : List Keyframe) (n : ℕ) : ℕ :=
  (List.range n).foldl (fun acc i => if visHit env c i then i else acc) usizeMAX

/-- Some index below `n` is visible-and-hit. -/
def anyHit (env : LoopEnv) (c : List Keyframe) (n : ℕ) : Bool :=
  (List.range n).any fun i => visHit env c i

/-- A Linear keyframe with zero tangents in Free control, for concrete runs. -/
def kfLin (t v : ℚ) : Keyframe :=
  { time := t, value := v, in_tangent := 0, out_tangent := 0,
    interpolation := Interpolation.Linear, tangent_control := TangentControl.Free }

/-- A 100x100 interaction rect at the origin with a 10x10 display window at
offset 0, the pointer at (5/2, 50), the primary button held.  Keyframes of
`exCurve` land at screen positions (0,50) and (5,50): both hit squares
(half-extent 6) contain the pointer. -/
def exEnv : LoopEnv := ⟨⟨⟨0, 0⟩, ⟨100, 100⟩⟩, ⟨0, 0⟩, ⟨10, 10⟩, ⟨5/2, 50⟩, true⟩

/-- Two keyframes whose screen positions overlap within the hit radius. -/
def exCurve : List Keyframe := [kfLin 0 5, kfLin (1/2) 5]

/-- An editor session with `exCurve`, nothing selected, not dragging. -/
def exEditor : CurveEditor :=
  { dragging := false, selected_keyframe := usizeMAX, display_offset := ⟨0, 0⟩,
    display_range := ⟨10, 10⟩, curve := exCurve,
    tangent_popup_position := ⟨0, 0⟩, tangent_drag := TangentEdit.No }

/-- A frame input: primary button held, pointer hovering far from every
keyframe, no scroll, no keys. -/
def inpFar : FrameInput :=
  { hover := some ⟨90, 90⟩, middleDrag := none, scroll := 0, modifier := false,
    down := true, keyI := false, keyD := false, rect := ⟨⟨0, 0⟩, ⟨100, 100⟩⟩ }

/-- A frame input: primary button held, pointer hovering over the
overlapping keyframes of `exCurve`. -/
def inpNear : FrameInput :=
  { hover := some ⟨5/2, 50⟩, middleDrag := none, scroll := 0, modifier := false,
    down := true, keyI := false, keyD := false, rect := ⟨⟨0, 0⟩, ⟨100, 100⟩⟩ }

/-- to_dir from src/main.rs lines 54-59. -/
noncomputable def to_dir (a : ℝ) : ℝ × ℝ :=
  (Real.cos (Real.arctan a), Real.sin (Real.arctan a))

/-- egui Vec2::normalized. -/
noncomputable def egNormalized (v : ℝ × ℝ) : ℝ × ℝ :=
  let n := Real.sqrt (v.1 * v.1 + v.2 * v.2)
  (v.1 / n, v.2 / n)

/-- f32::copysign over the reals. -/
noncomputable def copysign (x s : ℝ) : ℝ := if s < 0 then -|x| else |x|

/-- to_tangent from src/main.rs lines 61-65. -/
noncomputable def to_tangent (v : ℝ × ℝ) : ℝ :=
  let u := egNormalized v
  u.2 / copysign (max |u.1| (1 / 10 ^ 12)) u.1


def env4 : LoopEnv := ⟨⟨⟨0, 0⟩, ⟨100, 100⟩⟩, ⟨0, 0⟩, ⟨10, 10⟩, ⟨50, 100⟩, true⟩

def st4 : LoopSt := ⟨[kfLin 0 0, kfLin 1 0], 0, true, TangentEdit.No⟩

def edC5 : CurveEditor := { exEditor with selected_keyframe := 0 }

def inpC5 : FrameInput :=
  { hover := some ⟨5, 50⟩, middleDrag := none, scroll := 0, modifier := false,
    down := true, keyI := false, keyD := true, rect := ⟨⟨0, 0⟩, ⟨100, 100⟩⟩ }

/-- C1: a zoom gesture is anchored at the cursor: mapping the screen
position of the pointer into curve space before and after `zoomStep` gives the same
curve-space point, on both axes, whichever axis was zoomed. -/
theorem c1_zoom_anchor (display_offset display_range : V2) (rect : Rect) (pos : V2)
    (delta : ℚ) (modifier : Bool)
    (hw : rect.min.x ≠ rect.max.x) (hh : rect.min.y ≠ rect.max.y) :
    toCurvePt rect (zoomStep display_offset display_range rect pos delta modifier).1
      (dispMax (zoomStep display_offset display_range rect pos delta modifier).1
        (zoomStep display_offset display_range rect pos delta modifier).2) pos
      = toCurvePt rect display_offset (dispMax display_offset display_range) pos := by
  have hw' : rect.max.x - rect.min.x ≠ 0 := sub_ne_zero.mpr (Ne.symm hw)
  have hw'' : rect.min.x - rect.max.x ≠ 0 := sub_ne_zero.mpr hw
  have hh' : rect.min.y - rect.max.y ≠ 0 := sub_ne_zero.mpr hh
  have hh'' : rect.max.y - rect.min.y ≠ 0 := sub_ne_zero.mpr (Ne.symm hh)
  cases modifier <;> refine V2.ext ?_ ?_ <;>
    simp only [zoomStep, toCurvePt, dispMax, remap, lerp_unclamped, Rect.size,
      Bool.false_eq_true, if_false, if_true, reduceIte] <;>
    field_simp <;> ring

/-- Witness for `c1_zoom_anchor` at a concrete viewport, pointer and scroll. -/
theorem c1_zoom_anchor_witness :
    toCurvePt ⟨⟨0, 0⟩, ⟨100, 100⟩⟩
      (zoomStep ⟨0, 0⟩ ⟨2, 3⟩ ⟨⟨0, 0⟩, ⟨100, 100⟩⟩ ⟨25, 40⟩ 10 false).1
      (dispMax (zoomStep ⟨0, 0⟩ ⟨2, 3⟩ ⟨⟨0, 0⟩, ⟨100, 100⟩⟩ ⟨25, 40⟩ 10 false).1
        (zoomStep ⟨0, 0⟩ ⟨2, 3⟩ ⟨⟨0, 0⟩, ⟨100, 100⟩⟩ ⟨25, 40⟩ 10 false).2) ⟨25, 40⟩
      = toCurvePt ⟨⟨0, 0⟩, ⟨100, 100⟩⟩ ⟨0, 0⟩ (dispMax ⟨0, 0⟩ ⟨2, 3⟩) ⟨25, 40⟩ :=
  c1_zoom_anchor ⟨0, 0⟩ ⟨2, 3⟩ ⟨⟨0, 0⟩, ⟨100, 100⟩⟩ ⟨25, 40⟩ 10 false
    (by decide) (by decide)

/-- C7 counterexample: a single zoom gesture with scroll delta equal to the
rect width drives `display_range.x` to exactly zero — it is not clamped to a
positive epsilon, refuting the claim that `display_range` stays strictly
positive under every zoom gesture. -/
theorem c7_counterexample :
    ¬ (0 < ((zoomStep ⟨0, 0⟩ ⟨2, 3⟩ ⟨⟨0, 0⟩, ⟨100, 100⟩⟩ ⟨5, 5⟩ 100 false).2).x) := by
  decide

/-- C7 amended: no clamping exists.  A zoom rescales only the zoomed axis, by
the factor `1 - delta / size`; the other axis is untouched.  Starting from a
positive range, the zoomed axis stays strictly positive exactly when the
scroll delta is smaller than the pixel size of that axis, so a delta greater
than or equal to the size produces a zero or negative range. -/
theorem c7_range_not_clamped (display_offset display_range : V2) (rect : Rect)
    (pos : V2) (delta : ℚ)
    (hw : 0 < rect.size.x) (hh : 0 < rect.size.y)
    (hrx : 0 < display_range.x) (hry : 0 < display_range.y) :
    ((zoomStep display_offset display_range rect pos delta false).2.x
        = display_range.x * (1 - delta / rect.size.x)
      ∧ (zoomStep display_offset display_range rect pos delta false).2.y
        = display_range.y
      ∧ (0 < (zoomStep display_offset display_range rect pos delta false).2.x
          ↔ delta < rect.size.x))
  ∧ ((zoomStep display_offset display_range rect pos delta true).2.y
        = display_range.y * (1 - delta / rect.size.y)
      ∧ (zoomStep display_offset display_range rect pos delta true).2.x
        = display_range.x
      ∧ (0 < (zoomStep display_offset display_range rect pos delta true).2.y
          ↔ delta < rect.size.y)) := by
  have hw' : rect.size.x ≠ 0 := ne_of_gt hw
  have hh' : rect.size.y ≠ 0 := ne_of_gt hh
  have hwa : rect.max.x - rect.min.x ≠ 0 := by
    simpa [Rect.size] using hw'
  have hwb : rect.min.x - rect.max.x ≠ 0 := fun h => hwa (by linarith [sub_eq_zero.mp h])
  have hha : rect.max.y - rect.min.y ≠ 0 := by
    simpa [Rect.size] using hh'
  have hhb : rect.min.y - rect.max.y ≠ 0 := fun h => hha (by linarith [sub_eq_zero.mp h])
  have hx : (zoomStep display_offset display_range rect pos delta false).2.x
      = display_range.x * (1 - delta / rect.size.x) := by
    simp only [zoomStep, Rect.size, Bool.false_eq_true, if_false, reduceIte]
    field_simp
    ring
  have hy : (zoomStep display_offset display_range rect pos delta true).2.y
      = display_range.y * (1 - delta / rect.size.y) := by
    simp only [zoomStep, Rect.size, if_true]
    field_simp
    ring
  refine ⟨⟨hx, by simp [zoomStep], ?_⟩, hy, by simp [zoomStep], ?_⟩
  · rw [hx]
    constructor
    · intro h
      by_contra hc
      push_neg at hc
      have h1 : 1 - delta / rect.size.x ≤ 0 := by
        have := (div_le_div_iff_of_pos_right hw).mpr hc
        rw [div_self hw'] at this
        linarith [this]
      nlinarith
    · intro h
      have h1 : delta / rect.size.x < 1 := (div_lt_one hw).mpr h
      have h2 : 0 < 1 - delta / rect.size.x := by linarith
      positivity
  · rw [hy]
    constructor
    · intro h
      by_contra hc
      push_neg at hc
      have h1 : 1 - delta / rect.size.y ≤ 0 := by
        have := (div_le_div_iff_of_pos_right hh).mpr hc
        rw [div_self hh'] at this
        linarith [this]
      nlinarith
    · intro h
      have h1 : delta / rect.size.y < 1 := (div_lt_one hh).mpr h
      have h2 : 0 < 1 - delta / rect.size.y := by linarith
      positivity

/-- Witness for `c7_range_not_clamped` at a concrete viewport and gesture. -/
theorem c7_range_not_clamped_witness :
    ((zoomStep ⟨0, 0⟩ ⟨2, 3⟩ ⟨⟨0, 0⟩, ⟨100, 100⟩⟩ ⟨5, 5⟩ 10 false).2.x
        = 2 * (1 - 10 / (Rect.size ⟨⟨0, 0⟩, ⟨100, 100⟩⟩).x)
      ∧ (zoomStep ⟨0, 0⟩ ⟨2, 3⟩ ⟨⟨0, 0⟩, ⟨100, 100⟩⟩ ⟨5, 5⟩ 10 false).2.y = 3
      ∧ (0 < (zoomStep ⟨0, 0⟩ ⟨2, 3⟩ ⟨⟨0, 0⟩, ⟨100, 100⟩⟩ ⟨5, 5⟩ 10 false).2.x
          ↔ (10 : ℚ) < (Rect.size ⟨⟨0, 0⟩, ⟨100, 100⟩⟩).x))
  ∧ ((zoomStep ⟨0, 0⟩ ⟨2, 3⟩ ⟨⟨0, 0⟩, ⟨100, 100⟩⟩ ⟨5, 5⟩ 10 true).2.y
        = 3 * (1 - 10 / (Rect.size ⟨⟨0, 0⟩, ⟨100, 100⟩⟩).y)
      ∧ (zoomStep ⟨0, 0⟩ ⟨2, 3⟩ ⟨⟨0, 0⟩, ⟨100, 100⟩⟩ ⟨5, 5⟩ 10 true).2.x = 2
      ∧ (0 < (zoomStep ⟨0, 0⟩ ⟨2, 3⟩ ⟨⟨0, 0⟩, ⟨100, 100⟩⟩ ⟨5, 5⟩ 10 true).2.y
          ↔ (10 : ℚ) < (Rect.size ⟨⟨0, 0⟩, ⟨100, 100⟩⟩).y)) :=
  c7_range_not_clamped ⟨0, 0⟩ ⟨2, 3⟩ ⟨⟨0, 0⟩, ⟨100, 100⟩⟩ ⟨5, 5⟩ 10
    (by decide) (by decide) (by decide) (by decide)

/-- C8: the screen/curve coordinate mapping round-trips exactly over the
rationals: for a proper interaction rectangle, a non-degenerate viewport
(both components of `display_range` nonzero) and any screen point inside
the rectangle, `toScreenPt` after `toCurvePt` is the identity. -/
theorem c8_round_trip (display_offset display_range : V2) (rect : Rect) (p : V2)
    (hw : rect.min.x < rect.max.x) (hh : rect.min.y < rect.max.y)
    (hrx : display_range.x ≠ 0) (hry : display_range.y ≠ 0)
    (hp : Rect.contains rect p = true) :
    toScreenPt rect display_offset (dispMax display_offset display_range)
      (toCurvePt rect display_offset (dispMax display_offset display_range) p)
      = p := by
  have hw' : rect.max.x - rect.min.x ≠ 0 := sub_ne_zero.mpr (ne_of_gt hw)
  have hw'' : rect.min.x - rect.max.x ≠ 0 := sub_ne_zero.mpr (ne_of_lt hw)
  have hh' : rect.max.y - rect.min.y ≠ 0 := sub_ne_zero.mpr (ne_of_gt hh)
  have hh'' : rect.min.y - rect.max.y ≠ 0 := sub_ne_zero.mpr (ne_of_lt hh)
  refine V2.ext ?_ ?_ <;>
    simp only [toScreenPt, toCurvePt, dispMax, remap, lerp_unclamped] <;>
    field_simp <;> ring

/-- Witness for `c8_round_trip` at a concrete viewport and screen point. -/
theorem c8_round_trip_witness :
    toScreenPt ⟨⟨0, 0⟩, ⟨100, 100⟩⟩ ⟨0, -1/2⟩ (dispMax ⟨0, -1/2⟩ ⟨2, 7/2⟩)
      (toCurvePt ⟨⟨0, 0⟩, ⟨100, 100⟩⟩ ⟨0, -1/2⟩ (dispMax ⟨0, -1/2⟩ ⟨2, 7/2⟩) ⟨30, 70⟩)
      = ⟨30, 70⟩ :=
  c8_round_trip ⟨0, -1/2⟩ ⟨2, 7/2⟩ ⟨⟨0, 0⟩, ⟨100, 100⟩⟩ ⟨30, 70⟩
    (by decide) (by decide) (by decide) (by decide) (by decide)

theorem loopBody_skip (env : LoopEnv) (ts : TStep) (s : LoopSt) (i : ℕ)
    (h : Rect.contains env.rect (kfScreenPos env s.curve i) = false) :
    loopBody env ts s i = s := by
  simp only [loopBody, h]
  simp

theorem loopBody_not_selected (env : LoopEnv) (ts : TStep) (s : LoopSt) (i : ℕ)
    (h2 : i ≠ s.sk) :
    loopBody env ts s i =
      if (Rect.contains env.rect (kfScreenPos env s.curve i)
          && (hitSquare env.pointer (kfScreenPos env s.curve i) 6 && env.down)) = true
      then { s with sk := i, dragging := s.dragging || env.down }
      else s := by
  have hsel : decide (i = s.sk) = false := by simp [h2]
  by_cases hc : Rect.contains env.rect (kfScreenPos env s.curve i) = true
  · by_cases hh : hitSquare env.pointer (kfScreenPos env s.curve i) 6 = true
    · simp only [loopBody, afterDrag, dot, hsel, hc, hh]
      cases hd : env.down <;> simp
    · simp only [loopBody, afterDrag, dot, hsel, hc, hh]
      simp [hh]
  · have hc' : Rect.contains env.rect (kfScreenPos env s.curve i) = false :=
      Bool.not_eq_true _ |>.mp hc
    rw [loopBody_skip env ts s i hc']
    simp [hc']

theorem lastHit_succ (env : LoopEnv) (c : List Keyframe) (n : ℕ) :
    lastHit env c (n + 1) = if visHit env c n then n else lastHit env c n := by
  simp [lastHit, List.range_succ, List.foldl_append]

theorem anyHit_succ (env : LoopEnv) (c : List Keyframe) (n : ℕ) :
    anyHit env c (n + 1) = (anyHit env c n || visHit env c n) := by
  simp [anyHit, List.range_succ, List.any_append]

theorem lastHit_cases (env : LoopEnv) (c : List Keyframe) (n : ℕ) :
    lastHit env c n = usizeMAX ∨ lastHit env c n < n := by
  induction n with
  | zero => exact Or.inl rfl
  | succ n ih =>
    rw [lastHit_succ]
    by_cases h : visHit env c n = true
    · simp [h]
    · simp only [Bool.not_eq_true] at h
      simp only [h, if_false, Bool.false_eq_true]
      cases ih with
      | inl h1 => exact Or.inl h1
      | inr h1 => exact Or.inr (Nat.lt_succ_of_lt h1)

theorem keyloop_fresh (env : LoopEnv) (ts : TStep) (c : List Keyframe)
    (d : Bool) (td : TangentEdit)
    (hd : env.down = true) (hmax : c.length ≤ usizeMAX) :
    ∀ n, n ≤ c.length →
      (List.range n).foldl (loopBody env ts) ⟨c, usizeMAX, d, td⟩
        = ⟨c, lastHit env c n, d || anyHit env c n, td⟩ := by
  intro n
  induction n with
  | zero =>
    intro _
    simp [lastHit, anyHit]
  | succ n ih =>
    intro hn
    have hn' : n ≤ c.length := Nat.le_of_succ_le hn
    have hnMAX : n < usizeMAX := Nat.lt_of_lt_of_le hn hmax
    rw [List.range_succ, List.foldl_append, ih hn', List.foldl_cons, List.foldl_nil]
    have hq : (LoopSt.mk c (lastHit env c n) (d || anyHit env c n) td).sk
        = lastHit env c n := rfl
    have hsk : n ≠ (LoopSt.mk c (lastHit env c n) (d || anyHit env c n) td).sk := by
      rw [hq]
      cases lastHit_cases env c n with
      | inl h1 => rw [h1]; exact Nat.ne_of_lt hnMAX
      | inr h1 => omega
    rw [loopBody_not_selected env ts _ n hsk]
    simp only [hd, Bool.and_true]
    rw [lastHit_succ, anyHit_succ]
    by_cases hv : visHit env c n = true
    · have : (Rect.contains env.rect (kfScreenPos env c n)
          && hitSquare env.pointer (kfScreenPos env c n) 6) = true := by
        simpa [visHit] using hv
      simp [this, hv]
    · simp only [Bool.not_eq_true] at hv
      have : (Rect.contains env.rect (kfScreenPos env c n)
          && hitSquare env.pointer (kfScreenPos env c n) 6) = false := by
        simpa [visHit] using hv
      simp [this, hv]

theorem lastHit_eq_of_max (env : LoopEnv) (c : List Keyframe) (m : ℕ)
    (hm : visHit env c m = true) :
    ∀ n, m < n → (∀ j, j < n → visHit env c j = true → j ≤ m) →
      lastHit env c n = m := by
  intro n
  induction n with
  | zero => intro h; exact absurd h (Nat.not_lt_zero m)
  | succ n ih =>
    intro hmn hmaxj
    rw [lastHit_succ]
    by_cases heq : m = n
    · subst heq
      simp [hm]
    · have hmn' : m < n := by omega
      have hvn : visHit env c n = false := by
        by_contra hc
        simp only [Bool.not_eq_false] at hc
        exact absurd (hmaxj n (Nat.lt_succ_self n) hc) (Nat.not_le_of_lt hmn')
      simp only [hvn, Bool.false_eq_true, if_false]
      exact ih hmn' fun j hj hv => hmaxj j (Nat.lt_succ_of_lt hj) hv

/-- C10: a keyframe whose mapped screen position lies outside the
interaction rect is skipped entirely by the per-keyframe pass: the loop body
returns the state unchanged — no hit test, no drag mutation, no tangent
editing, no selection change (an off-screen selected keyframe stays
selected), for every tangent sub-step. -/
theorem c10_offscreen_untouched (env : LoopEnv) (ts : TStep) (s : LoopSt) (i : ℕ)
    (h : Rect.contains env.rect (kfScreenPos env s.curve i) = false) :
    loopBody env ts s i = s :=
  loopBody_skip env ts s i h

/-- Witness for `c10_offscreen_untouched`: a selected, dragging keyframe at
time 20 maps to x = 200, outside the 100-wide rect, and the body leaves the
state untouched. -/
theorem c10_offscreen_untouched_witness :
    loopBody exEnv tangentIdle ⟨[kfLin 20 5], 0, true, TangentEdit.No⟩ 0
      = ⟨[kfLin 20 5], 0, true, TangentEdit.No⟩ :=
  c10_offscreen_untouched exEnv tangentIdle ⟨[kfLin 20 5], 0, true, TangentEdit.No⟩ 0
    (by decide)

/-- C2 counterexample: with the pointer pressed over two overlapping
keyframes (indices 0 and 1 both visible-and-hit) and nothing selected, the
per-keyframe pass leaves `selected_keyframe` ≠ 0: the SMALLEST hit index
does not win, refuting the claim as stated. -/
theorem c2_counterexample :
    visHit exEnv exCurve 0 = true ∧ visHit exEnv exCurve 1 = true
  ∧ exEnv.down = true
  ∧ (keyframeLoop exEnv tangentIdle ⟨exCurve, usizeMAX, false, TangentEdit.No⟩).sk ≠ 0 := by
  decide

/-- C2 amended: each hit keyframe overwrites the selection in index order,
so when the pointer is pressed, nothing is selected at loop entry and the
curve fits a usize, the keyframe with the LARGEST index among the
visible-and-hit keyframes ends up selected (not the smallest). -/
theorem c2_last_hit_selected (env : LoopEnv) (ts : TStep) (c : List Keyframe)
    (d : Bool) (td : TangentEdit) (m : ℕ)
    (hmax : c.length ≤ usizeMAX) (hd : env.down = true)
    (hm : m < c.length) (hv : visHit env c m = true)
    (hmx : ∀ j, j < c.length → visHit env c j = true → j ≤ m) :
    (keyframeLoop env ts ⟨c, usizeMAX, d, td⟩).sk = m := by
  unfold keyframeLoop
  rw [show (LoopSt.mk c usizeMAX d td).curve = c from rfl,
    keyloop_fresh env ts c d td hd hmax c.length (Nat.le_refl _)]
  exact lastHit_eq_of_max env c m hv c.length hm hmx

/-- Witness for `c2_last_hit_selected`: on `exCurve` both keyframes are hit
and index 1 (the larger) wins. -/
theorem c2_last_hit_selected_witness :
    (keyframeLoop exEnv tangentIdle ⟨exCurve, usizeMAX, false, TangentEdit.No⟩).sk = 1 :=
  c2_last_hit_selected exEnv tangentIdle exCurve false TangentEdit.No 1
    (by decide) (by decide) (by decide) (by decide) (by decide)

theorem afterDrag_dragging_of_up (env : LoopEnv) (ts : TStep) (selected : Bool)
    (s : LoopSt) (i : ℕ) (t v : ℚ) (pos : V2) (hd : env.down = false) :
    (afterDrag env ts selected s i t v pos).dragging = s.dragging := by
  unfold afterDrag dot
  by_cases hh : hitSquare env.pointer pos 6 = true <;>
    cases selected <;> simp [hh, hd]

theorem loopBody_dragging_of_up (env : LoopEnv) (ts : TStep) (s : LoopSt) (i : ℕ)
    (hd : env.down = false) :
    (loopBody env ts s i).dragging = s.dragging := by
  by_cases hc : Rect.contains env.rect (kfScreenPos env s.curve i) = true
  · unfold loopBody
    simp only [hc, not_true, if_false, ite_false]
    split
    · split
      · split
        · split <;> rfl
        · rw [afterDrag_dragging_of_up env ts _ _ i _ _ _ hd]
          split <;> rfl
      · rw [afterDrag_dragging_of_up env ts _ _ i _ _ _ hd]
        split <;> rfl
    · rw [afterDrag_dragging_of_up env ts _ _ i _ _ _ hd]
  · rw [loopBody_skip env ts s i (Bool.not_eq_true _ |>.mp hc)]

theorem keyframeLoop_dragging_of_up (env : LoopEnv) (ts : TStep) (l : List ℕ)
    (s : LoopSt) (hd : env.down = false) :
    (l.foldl (loopBody env ts) s).dragging = s.dragging := by
  induction l generalizing s with
  | nil => rfl
  | cons a l ih =>
    rw [List.foldl_cons, ih, loopBody_dragging_of_up env ts s a hd]

/-- C3 counterexample: two consecutive frames with the primary button held
in both.  In the first the pointer is away from every keyframe and
`dragging` stays false; in the second the pointer is over a keyframe and
`dragging` becomes true — although the button state of the previous frame
was down, not up, refuting edge-triggering. -/
theorem c3_counterexample :
    inpFar.down = true ∧ inpNear.down = true
  ∧ (ui_example tangentIdle exEditor inpFar).dragging = false
  ∧ (ui_example tangentIdle (ui_example tangentIdle exEditor inpFar) inpNear).dragging
      = true := by
  decide

/-- C3 amended: `dragging` is level-triggered, not edge-triggered.  A frame
with the button up forces `dragging` to false; and during the per-keyframe
pass with the button held (and nothing selected at entry), `dragging` ends
true exactly when it was already true or some visible keyframe is hit —
regardless of the button state of the previous frame. -/
theorem c3_dragging_level_triggered :
    (∀ (ts : TStep) (ed : CurveEditor) (inp : FrameInput),
        inp.down = false → (ui_example ts ed inp).dragging = false)
  ∧ (∀ (env : LoopEnv) (ts : TStep) (c : List Keyframe) (d : Bool) (td : TangentEdit),
        c.length ≤ usizeMAX → env.down = true →
        (keyframeLoop env ts ⟨c, usizeMAX, d, td⟩).dragging
          = (d || anyHit env c c.length)) := by
  constructor
  · intro ts ed inp hd
    unfold ui_example
    simp only [hd, Bool.false_eq_true, if_false, ite_false]
    rw [keyframeLoop]
    rw [keyframeLoop_dragging_of_up]
    simp
  · intro env ts c d td hmax hdown
    unfold keyframeLoop
    rw [show (LoopSt.mk c usizeMAX d td).curve = c from rfl,
      keyloop_fresh env ts c d td hdown hmax c.length (Nat.le_refl _)]

/-- Witness for `c3_dragging_level_triggered` at a concrete frame and a
concrete per-keyframe pass. -/
theorem c3_dragging_level_triggered_witness :
    ((ui_example tangentIdle exEditor { inpFar with down := false }).dragging = false)
  ∧ ((keyframeLoop exEnv tangentIdle ⟨exCurve, usizeMAX, false, TangentEdit.No⟩).dragging
      = (false || anyHit exEnv exCurve exCurve.length)) :=
  ⟨c3_dragging_level_triggered.1 tangentIdle exEditor { inpFar with down := false } rfl,
   c3_dragging_level_triggered.2 exEnv tangentIdle exCurve false TangentEdit.No
     (by decide) (by decide)⟩

/-- C4: during a drag of the selected keyframe, when `set_time` reports a
reordering by returning a new index `k`, the loop body ends with the
selection retargeted to `k` and the remaining per-keyframe processing for
the old index skipped: no tangent sub-step runs and the hit-test/selection
update does not run, for every tangent sub-step `ts`. -/
theorem c4_reorder_retargets_and_skips (env : LoopEnv) (ts : TStep) (s : LoopSt)
    (i k : ℕ)
    (hvis : Rect.contains env.rect (kfScreenPos env s.curve i) = true)
    (hsel : i = s.sk) (hdrag : s.dragging = true)
    (hdx : |(kfScreenPos env s.curve i).x - env.pointer.x| > 1 / 2)
    (hst : (setTime (if |(kfScreenPos env s.curve i).y - env.pointer.y| > 1 / 2
          then setValue s.curve i (pointerValue env) else s.curve) i
        (pointerTime env)).2 = some k) :
    loopBody env ts s i =
      ⟨(setTime (if |(kfScreenPos env s.curve i).y - env.pointer.y| > 1 / 2
            then setValue s.curve i (pointerValue env) else s.curve) i
          (pointerTime env)).1,
        k, s.dragging, s.tdrag⟩ := by
  have hsel' : decide (i = s.sk) = true := by simp [hsel]
  unfold loopBody
  simp only [hvis, not_true, if_false, ite_false, hsel', hdrag, Bool.and_self, if_true,
    ite_true]
  by_cases hy : |(kfScreenPos env s.curve i).y - env.pointer.y| > 1 / 2
  · simp only [hy, if_true, ite_true] at hst ⊢
    simp only [hdx, if_true, ite_true]
    rcases hr : (setTime (setValue s.curve i (pointerValue env)) i (pointerTime env)).2
      with _ | k'
    · rw [hr] at hst; exact absurd hst (by simp)
    · rw [hr] at hst
      simp only [hr]
      cases hst
      rfl
  · simp only [hy, if_false, ite_false] at hst ⊢
    simp only [hdx, if_true, ite_true]
    rcases hr : (setTime s.curve i (pointerTime env)).2 with _ | k'
    · rw [hr] at hst; exact absurd hst (by simp)
    · rw [hr] at hst
      simp only [hr]
      cases hst
      rw [hdrag]

/-- Witness for `c4_reorder_retargets_and_skips`: dragging keyframe 0 of a
two-keyframe curve to time 5 crosses its neighbor; `set_time` returns
index 1 and the body ends retargeted to 1 with nothing else applied. -/
theorem c4_reorder_retargets_and_skips_witness :
    loopBody env4 tangentIdle st4 0 =
      ⟨(setTime (if |(kfScreenPos env4 st4.curve 0).y - env4.pointer.y| > 1 / 2
            then setValue st4.curve 0 (pointerValue env4) else st4.curve) 0
          (pointerTime env4)).1, 1, st4.dragging, st4.tdrag⟩ :=
  c4_reorder_retargets_and_skips env4 tangentIdle st4 0 1
    (by decide) (by decide) (by decide) (by decide) (by decide)

theorem autoRecomputeGo_length (c : List Keyframe) :
    ∀ (l : List Keyframe) (i : ℕ), (autoRecomputeGo c i l).length = l.length := by
  intro l
  induction l with
  | nil => intro i; rfl
  | cons kf rest ih => intro i; simp [autoRecomputeGo, ih]

theorem autoRecompute_length (c : List Keyframe) :
    (autoRecompute c).length = c.length := autoRecomputeGo_length c c 0

theorem removeKf_length (c : List Keyframe) (i : ℕ) (h : i < c.length) :
    (removeKf c i).length = c.length - 1 := by
  unfold removeKf
  rw [if_pos h, autoRecompute_length, List.length_eraseIdx, if_pos h]

/-- C5 counterexample: a frame with keyframe 0 selected (a valid index) and
the delete key pressed, but with the pointer pressed over the other
keyframe: after the frame the selection is NOT cleared — the hit-test pass
re-selects the surviving keyframe — refuting the claim as stated over the
whole frame. -/
theorem c5_counterexample :
    edC5.selected_keyframe ≠ usizeMAX
  ∧ edC5.selected_keyframe < edC5.curve.length
  ∧ inpC5.keyD = true
  ∧ ¬ ((ui_example tangentIdle edC5 inpC5).selected_keyframe = usizeMAX) := by
  decide

/-- C5 amended: at the delete step itself, a pressed delete key with a
valid selection clears the selection and shrinks the curve by exactly one;
with no selection the delete step is a no-op.  (Later in the same frame the
hit-test pass may re-select a keyframe, and a simultaneous insert also
changes the length, as the counterexample shows.) -/
theorem c5_delete_clears_and_shrinks (c : List Keyframe) (sk : ℕ)
    (hne : sk ≠ usizeMAX) (hlt : sk < c.length) :
    ((deleteStep true c sk).2 = usizeMAX
      ∧ (deleteStep true c sk).1.length + 1 = c.length)
  ∧ (∀ (c2 : List Keyframe) (keyD : Bool), deleteStep keyD c2 usizeMAX = (c2, usizeMAX)) := by
  refine ⟨⟨?_, ?_⟩, ?_⟩
  · simp [deleteStep, hne]
  · simp only [deleteStep, hne, ne_eq, not_false_eq_true, and_self, if_pos, true_and]
    have : (removeKf c sk).length = c.length - 1 := removeKf_length c sk hlt
    simp only [this]
    omega
  · intro c2 keyD
    simp [deleteStep]

/-- Witness for `c5_delete_clears_and_shrinks` on the two-keyframe
`exCurve` with keyframe 0 selected. -/
theorem c5_delete_clears_and_shrinks_witness :
    ((deleteStep true exCurve 0).2 = usizeMAX
      ∧ (deleteStep true exCurve 0).1.length + 1 = exCurve.length)
  ∧ (deleteStep false [kfLin 0 0] usizeMAX = ([kfLin 0 0], usizeMAX)) :=
  ⟨(c5_delete_clears_and_shrinks exCurve 0 (by decide) (by decide)).1,
   (c5_delete_clears_and_shrinks exCurve 0 (by decide) (by decide)).2 [kfLin 0 0] false⟩

theorem insertSorted_length (k : Keyframe) :
    ∀ (c : List Keyframe), (insertSorted k c).length = c.length + 1 := by
  intro c
  induction c with
  | nil => rfl
  | cons a rest ih =>
    unfold insertSorted
    by_cases h : k.time < a.time
    · simp [h]
    · simp [h, ih]

theorem insertSorted_get (k : Keyframe) :
    ∀ (c : List Keyframe), (insertSorted k c)[insertPos k.time c]? = some k := by
  intro c
  induction c with
  | nil => rfl
  | cons a rest ih =>
    unfold insertSorted insertPos
    by_cases h : k.time < a.time
    · simp [h]
    · simp [h, ih]

theorem autoRecomputeGo_get (c : List Keyframe) :
    ∀ (l : List Keyframe) (i j : ℕ),
      (autoRecomputeGo c i l)[j]? = (l[j]?).map fun kf => updAuto c (i + j) kf := by
  intro l
  induction l with
  | nil => intro i j; rfl
  | cons kf rest ih =>
    intro i j
    cases j with
    | zero => simp [autoRecomputeGo]
    | succ j =>
      simp only [autoRecomputeGo, List.getElem?_cons_succ]
      have hidx : i + 1 + j = i + (j + 1) := by omega
      rw [ih (i + 1) j, hidx]

theorem updAuto_time (c : List Keyframe) (i : ℕ) (kf : Keyframe) :
    (updAuto c i kf).time = kf.time := by
  unfold updAuto
  split <;> rfl

theorem updAuto_value (c : List Keyframe) (i : ℕ) (kf : Keyframe) :
    (updAuto c i kf).value = kf.value := by
  unfold updAuto
  split <;> rfl

theorem updAuto_interpolation (c : List Keyframe) (i : ℕ) (kf : Keyframe) :
    (updAuto c i kf).interpolation = kf.interpolation := by
  unfold updAuto
  split <;> rfl

theorem autoRecompute_get_time (l : List Keyframe) (j : ℕ) :
    ((autoRecompute l)[j]?).map Keyframe.time = (l[j]?).map Keyframe.time := by
  unfold autoRecompute
  rw [autoRecomputeGo_get]
  cases l[j]? <;> simp [updAuto_time]

theorem autoRecompute_get_value (l : List Keyframe) (j : ℕ) :
    ((autoRecompute l)[j]?).map Keyframe.value = (l[j]?).map Keyframe.value := by
  unfold autoRecompute
  rw [autoRecomputeGo_get]
  cases l[j]? <;> simp [updAuto_value]

theorem autoRecompute_get_interpolation (l : List Keyframe) (j : ℕ) :
    ((autoRecompute l)[j]?).map Keyframe.interpolation
      = (l[j]?).map Keyframe.interpolation := by
  unfold autoRecompute
  rw [autoRecomputeGo_get]
  cases l[j]? <;> simp [updAuto_interpolation]

/-- C6: on the insert key, the insert block inserts a keyframe whose time
is the curve-space time under the pointer, whose value is the sampled curve
value at that time and whose interpolation is Hermite; if the insertion is
accepted the selection becomes the returned index (at which the new
keyframe sits), and if it is rejected the selection becomes `usize::MAX`
with the curve unchanged. -/
theorem c6_insert_under_pointer (env : LoopEnv) (c : List Keyframe) (sk : ℕ) :
    ((insertKf c (pointerTime env) (sample c (pointerTime env))
        Interpolation.Hermite).2 = none →
      insertStep env true c sk = (c, usizeMAX))
  ∧ (∀ j,
      (insertKf c (pointerTime env) (sample c (pointerTime env))
          Interpolation.Hermite).2 = some j →
        (insertStep env true c sk).2 = j
        ∧ (insertStep env true c sk).1.length = c.length + 1
        ∧ ((insertStep env true c sk).1[j]?).map Keyframe.time
            = some (pointerTime env)
        ∧ ((insertStep env true c sk).1[j]?).map Keyframe.value
            = some (sample c (pointerTime env))
        ∧ ((insertStep env true c sk).1[j]?).map Keyframe.interpolation
            = some Interpolation.Hermite) := by
  by_cases hcol :
      (c.any fun kf => decide (kf.time = pointerTime env)) = true
  · constructor
    · intro _
      simp [insertStep, insertKf, hcol]
    · intro j hj
      rw [insertKf, if_pos hcol] at hj
      exact absurd hj (by simp)
  · have hcol' : (c.any fun kf => decide (kf.time = pointerTime env)) = false :=
      Bool.not_eq_true _ |>.mp hcol
    constructor
    · intro hn
      rw [insertKf, if_neg (by simp [hcol'])] at hn
      exact absurd hn (by simp)
    · intro j hj
      rw [insertKf, if_neg (by simp [hcol'])] at hj
      simp only [Option.some.injEq] at hj
      subst hj
      have hstep : insertStep env true c sk
          = ((insertKf c (pointerTime env) (sample c (pointerTime env))
              Interpolation.Hermite).1,
            ((insertKf c (pointerTime env) (sample c (pointerTime env))
              Interpolation.Hermite).2).getD usizeMAX) := by
        simp [insertStep]
      rw [insertKf, if_neg (by simp [hcol'])] at hstep
      rw [hstep]
      refine ⟨rfl, ?_, ?_, ?_, ?_⟩
      · rw [autoRecompute_length, insertSorted_length]
      · rw [autoRecompute_get_time, insertSorted_get]
        simp
      · rw [autoRecompute_get_value, insertSorted_get]
        simp
      · rw [autoRecompute_get_interpolation, insertSorted_get]
        simp

/-- Witness for `c6_insert_under_pointer`: inserting over `exCurve` at
pointer time 1/4 succeeds at index 1 with value `sample exCurve (1/4)` and
Hermite interpolation. -/
theorem c6_insert_under_pointer_witness :
    (insertStep exEnv true exCurve usizeMAX).2 = 1
  ∧ (insertStep exEnv true exCurve usizeMAX).1.length = exCurve.length + 1
  ∧ ((insertStep exEnv true exCurve usizeMAX).1[1]?).map Keyframe.time
      = some (pointerTime exEnv)
  ∧ ((insertStep exEnv true exCurve usizeMAX).1[1]?).map Keyframe.value
      = some (sample exCurve (pointerTime exEnv))
  ∧ ((insertStep exEnv true exCurve usizeMAX).1[1]?).map Keyframe.interpolation
      = some Interpolation.Hermite :=
  (c6_insert_under_pointer exEnv exCurve usizeMAX).2 1 (by decide)

theorem toDir_norm (a : ℝ) : egNormalized (to_dir a) = to_dir a := by
  unfold egNormalized to_dir
  have h1 : Real.cos (Real.arctan a) * Real.cos (Real.arctan a)
      + Real.sin (Real.arctan a) * Real.sin (Real.arctan a) = 1 := by
    have h2 := Real.sin_sq_add_cos_sq (Real.arctan a)
    nlinarith [h2]
  simp [h1]

/-- C9 amended: the slope/direction pair round-trips on the domain where
the 1e-12 guard in `to_tangent` is inactive: for every slope `a` with
`a^2 ≤ 10^24 - 1` (so that `cos (arctan a) ≥ 1e-12`),
`to_tangent (to_dir a) = a`. -/
theorem c9_round_trip_in_clamp (a : ℝ) (h : a ^ 2 ≤ 10 ^ 24 - 1) :
    to_tangent (to_dir a) = a := by
  have hpos : (0:ℝ) < 1 + a ^ 2 := by positivity
  have hsqrt_pos : 0 < Real.sqrt (1 + a ^ 2) := Real.sqrt_pos.mpr hpos
  have hsq : Real.sqrt (1 + a ^ 2) ≤ 10 ^ 12 := by
    have h2 : (1 + a ^ 2) ≤ ((10:ℝ) ^ 12) ^ 2 := by nlinarith [h]
    calc Real.sqrt (1 + a ^ 2) ≤ Real.sqrt (((10:ℝ) ^ 12) ^ 2) := Real.sqrt_le_sqrt h2
      _ = 10 ^ 12 := Real.sqrt_sq (by positivity)
  have hcos : Real.cos (Real.arctan a) = 1 / Real.sqrt (1 + a ^ 2) :=
    Real.cos_arctan a
  have hcos_pos : 0 < Real.cos (Real.arctan a) := by
    rw [hcos]; positivity
  have heps : (1 / 10 ^ 12 : ℝ) ≤ Real.cos (Real.arctan a) := by
    rw [hcos]
    exact one_div_le_one_div_of_le hsqrt_pos hsq
  unfold to_tangent
  rw [toDir_norm]
  simp only [to_dir]
  rw [abs_of_pos hcos_pos, max_eq_left heps]
  unfold copysign
  rw [if_neg (not_lt.mpr (le_of_lt hcos_pos)), abs_of_pos hcos_pos]
  rw [← Real.tan_eq_sin_div_cos, Real.tan_arctan]

/-- Witness for `c9_round_trip_in_clamp` at slope 1. -/
theorem c9_round_trip_in_clamp_witness : to_tangent (to_dir 1) = 1 :=
  c9_round_trip_in_clamp 1 (by norm_num)

/-- C9 counterexample: the round-trip fails for the finite slope `10^13`:
there `cos (arctan a) < 1e-12`, the guard clamps the denominator and
`to_tangent (to_dir a)` is strictly below `a`. -/
theorem c9_counterexample :
    to_tangent (to_dir ((10 : ℝ) ^ 13)) ≠ (10 : ℝ) ^ 13 := by
  have hA : (0:ℝ) < 10 ^ 13 := by positivity
  have hpos : (0:ℝ) < 1 + ((10:ℝ) ^ 13) ^ 2 := by positivity
  have hsqrt_pos : 0 < Real.sqrt (1 + ((10:ℝ) ^ 13) ^ 2) := Real.sqrt_pos.mpr hpos
  have hgt : (10:ℝ) ^ 12 < Real.sqrt (1 + ((10:ℝ) ^ 13) ^ 2) := by
    have h2 : ((10:ℝ) ^ 12) ^ 2 < 1 + ((10:ℝ) ^ 13) ^ 2 := by norm_num
    calc (10:ℝ) ^ 12 = Real.sqrt (((10:ℝ) ^ 12) ^ 2) :=
        (Real.sqrt_sq (by positivity)).symm
      _ < Real.sqrt (1 + ((10:ℝ) ^ 13) ^ 2) := Real.sqrt_lt_sqrt (by positivity) h2
  have hcos : Real.cos (Real.arctan ((10:ℝ) ^ 13))
      = 1 / Real.sqrt (1 + ((10:ℝ) ^ 13) ^ 2) := Real.cos_arctan _
  have hsin : Real.sin (Real.arctan ((10:ℝ) ^ 13))
      = (10:ℝ) ^ 13 / Real.sqrt (1 + ((10:ℝ) ^ 13) ^ 2) := Real.sin_arctan _
  have hcos_pos : 0 < Real.cos (Real.arctan ((10:ℝ) ^ 13)) := by
    rw [hcos]; positivity
  have hcos_lt : Real.cos (Real.arctan ((10:ℝ) ^ 13)) < 1 / 10 ^ 12 := by
    rw [hcos]
    exact one_div_lt_one_div_of_lt (by positivity) hgt
  unfold to_tangent
  rw [toDir_norm]
  simp only [to_dir]
  rw [abs_of_pos hcos_pos, max_eq_right (le_of_lt hcos_lt)]
  unfold copysign
  rw [if_neg (not_lt.mpr (le_of_lt hcos_pos)),
    abs_of_pos (show (0:ℝ) < 1 / 10 ^ 12 by positivity)]
  rw [hsin]
  apply ne_of_lt
  rw [div_lt_iff (show (0:ℝ) < 1 / 10 ^ 12 by positivity), div_lt_iff hsqrt_pos,
    show (10:ℝ) ^ 13 * (1 / 10 ^ 12) = 10 from by norm_num]
  nlinarith [hgt]
